import Mathlib

/-!
Verification of the embedding core of the shelter-match-rag repository:
the profile builder and embedding client (`src/embedding/embedder.py`),
the vector store (`src/embedding/vector_store.py`), and the metadata
extraction of the pipeline (`src/embedding/embedding_pipeline.py`).

Modelling conventions:
* Python strings are sequences of code points, modelled as `List Char`.
* Python floats are modelled as `ℚ`; faiss's `IndexFlatL2` stores raw
  vectors and returns the *squared* L2 distance of each hit.
* A faiss flat index is modelled by its dimension together with the list
  of stored vectors, in insertion order.  `faiss.write_index` /
  `faiss.read_index` and `pickle.dump` / `pickle.load` round-trip these
  values exactly, so a saved file is modelled by the value it holds, and
  the file system by a map from paths to file contents.
* Methods that can mutate `self` are modelled as functions returning the
  new store (paired with their Python return value where there is one);
  a raised exception is modelled with `Except`, the state being
  unchanged at the raise site exactly when no field of `self` was
  reassigned before the raising statement in the source.
-/

/-- Python strings, as sequences of code points. -/
abbrev Str := List Char

/-! ### Profile builder (`Embedder._create_dog_profile_text`) -/

/-- A dog record as consumed by `_create_dog_profile_text`: a dict whose
keys may be absent (`none`).  `dog_data.get(key, default)` is
`(field).getD default`. -/
structure DogData where
  name : Option Str
  breed : Option Str
  sex : Option Str
  age : Option Str
  weight : Option Str
  description : Option Str
  temperament : Option Str
  special_needs : Option Str
  training : Option Str
deriving DecidableEq

/-- The source pattern `x = dog_data.get(key, ''); if x: parts.append(label + x)`:
the line is emitted only when the key is present with a non-empty value. -/
def optLine (label : Str) (v : Option Str) : List Str :=
  if v.getD [] = [] then [] else [label ++ v.getD []]

/-- `Embedder._create_dog_profile_text` from `src/embedding/embedder.py`:
builds the list of `"Label: value"` parts in source order and joins them
with `"\n"`. -/
def create_dog_profile_text (dog_data : DogData) : Str :=
  List.intercalate ['\n']
    (["Name: ".toList ++ dog_data.name.getD "Unknown".toList,
      "Breed: ".toList ++ dog_data.breed.getD "Unknown".toList,
      "Sex: ".toList ++ dog_data.sex.getD "Unknown".toList,
      "Age: ".toList ++ dog_data.age.getD "Unknown".toList,
      "Weight: ".toList ++ dog_data.weight.getD "Unknown".toList]
      ++ optLine "Description: ".toList dog_data.description
      ++ optLine "Temperament: ".toList dog_data.temperament
      ++ optLine "Special Needs: ".toList dog_data.special_needs
      ++ optLine "Training: ".toList dog_data.training)

/-! ### Embedding client (`Embedder.get_embedding`, `Embedder.get_embeddings`) -/

/-- The hard-coded fallback `[0.0] * 1536` of `embedder.py`. -/
def zero_vector : List ℚ := List.replicate 1536 0

/-- `Embedder.get_embedding`: one provider call for the given text; any
exception is swallowed and the zero vector returned.  The provider
(`openai.Embedding.create`) is a parameter: `none` models a call that
raises. -/
def get_embedding (provider : Str → Option (List ℚ)) (text : Str) : List ℚ :=
  match provider text with
  | some e => e
  | none => zero_vector

/-- `Embedder.get_embeddings`: walks the input in chunks of
`batch_size = 20`; a chunk whose provider call raises contributes
`[zero_vector] * len(batch)`, a successful call contributes the returned
embeddings in order. -/
def get_embeddings (provider : List Str → Option (List (List ℚ))) :
    List Str → List (List ℚ)
  | [] => []
  | t :: rest =>
      let batch := (t :: rest).take 20
      (match provider batch with
       | some es => es
       | none => List.replicate batch.length zero_vector)
        ++ get_embeddings provider ((t :: rest).drop 20)
termination_by texts => texts.length
decreasing_by simp [List.length_drop]; omega

/-- The chunk of 20 texts that slot `i` of the input falls into. -/
def chunk20 (texts : List Str) (i : ℕ) : List Str :=
  (texts.drop (20 * (i / 20))).take 20

/-! ### Metadata extraction (`EmbeddingPipeline._extract_metadata`) -/

/-- One DataFrame row, as read by `_extract_metadata` via `row.get`:
each column may be absent. -/
structure DogRow where
  dog_id : Option Str
  name : Option Str
  breed : Option Str
  sex : Option Str
  age : Option Str
  weight : Option Str
  data_source : Option Str
  source_id : Option Str
  profile_text : Option Str
  description : Option Str
deriving DecidableEq

/-- A metadata dict as built by `_extract_metadata`: nine always-present
keys, plus `description_snippet` which is only set when the row has a
non-empty description. -/
structure Metadata where
  dog_id : Str
  name : Str
  breed : Str
  sex : Str
  age : Str
  weight : Str
  data_source : Str
  source_id : Str
  profile_text : Str
  description_snippet : Option Str
deriving DecidableEq

/-- The body of `_extract_metadata`'s per-row loop
(`src/embedding/embedding_pipeline.py`).  The snippet is
`description[:200] + "..." if len(description) > 200 else description`,
i.e. `(description[:200] + "...")` when over 200 code points, else the
description itself; the key is omitted when the description is empty. -/
def extract_metadata_row (row : DogRow) : Metadata :=
  let description := row.description.getD []
  { dog_id := row.dog_id.getD []
    name := row.name.getD "Unknown".toList
    breed := row.breed.getD "Unknown".toList
    sex := row.sex.getD "Unknown".toList
    age := row.age.getD "Unknown".toList
    weight := row.weight.getD "Unknown".toList
    data_source := row.data_source.getD "Unknown".toList
    source_id := row.source_id.getD []
    profile_text := row.profile_text.getD []
    description_snippet :=
      if description = [] then none
      else some (if 200 < description.length
                 then description.take 200 ++ "...".toList
                 else description) }

/-- `EmbeddingPipeline._extract_metadata`: one metadata dict per row, in
row order. -/
def extract_metadata (rows : List DogRow) : List Metadata :=
  rows.map extract_metadata_row

/-! ### Vector store (`VectorStore`) -/

/-- A search hit: a copy of a stored metadata dict with the extra
`similarity_score` key set. -/
structure SearchResult where
  meta : Metadata
  similarity_score : ℚ
deriving DecidableEq

/-- The in-memory state of a `VectorStore`: the construction-time
`embedding_dim` attribute, and the faiss `IndexFlatL2` (its dimension
`index_dim = index.d` and stored vectors, with `ntotal =
index_vectors.length`) alongside the `metadata` list. -/
structure VectorStore where
  embedding_dim : ℕ
  index_dim : ℕ
  index_vectors : List (List ℚ)
  metadata : List Metadata
deriving DecidableEq

/-- `VectorStore.__init__(embedding_dim)` without pre-existing files:
a fresh `IndexFlatL2(embedding_dim)` and empty metadata. -/
def VectorStore.init (embedding_dim : ℕ) : VectorStore :=
  ⟨embedding_dim, embedding_dim, [], []⟩

/-- The exceptions `add_embeddings` can raise before touching the store:
the explicit `ValueError` on a length mismatch, and the
`numpy`/`faiss` error when some vector's length differs from the index
dimension (`np.array` rejects ragged input; `faiss` asserts `d == self.d`
before adding). -/
inductive AddError
  | length_mismatch
  | dimension_mismatch
deriving DecidableEq

/-- `VectorStore.add_embeddings`.  The length check precedes everything;
an empty batch returns early; the conversion to a `(n, d)` float array
and `index.add` raise before either the index or the metadata list is
modified when any vector's length differs from `index.d`; otherwise the
vectors and the metadata are appended in lockstep. -/
def VectorStore.add_embeddings (s : VectorStore) (embeddings : List (List ℚ))
    (metadata_list : List Metadata) : Except AddError VectorStore :=
  if embeddings.length ≠ metadata_list.length then .error .length_mismatch
  else if embeddings.isEmpty then .ok s
  else if embeddings.any (fun v => v.length ≠ s.index_dim) then .error .dimension_mismatch
  else .ok { s with index_vectors := s.index_vectors ++ embeddings,
                    metadata := s.metadata ++ metadata_list }

/-- The squared L2 distance faiss's `IndexFlatL2` reports for a stored
vector (componentwise over the common prefix; stored and query vectors
of an index of dimension `d` both have length `d`). -/
def squaredL2 (q v : List ℚ) : ℚ :=
  ((q.zip v).map (fun p => (p.1 - p.2) ^ 2)).sum

/-- The score transform of `VectorStore.search`:
`1.0 / (1.0 + distances[0][i])`, applied to the squared L2 distance
returned by the faiss index. -/
def similarityScore (d : ℚ) : ℚ := 1 / (1 + d)

/-- Ordering of `(stored position, squared distance)` pairs by distance. -/
def rankLE (a b : ℕ × ℚ) : Prop := a.2 ≤ b.2

instance : DecidableRel rankLE := fun a b => inferInstanceAs (Decidable (a.2 ≤ b.2))

instance : IsTotal (ℕ × ℚ) rankLE := ⟨fun a b => le_total a.2 b.2⟩

instance : IsTrans (ℕ × ℚ) rankLE := ⟨fun _ _ _ h1 h2 => le_trans h1 h2⟩

/-- `VectorStore.search`.  After the guards (`self.index` is never
`None` here; empty metadata short-circuits to `[]`), faiss returns the
`min(top_k, len(self.metadata))` stored vectors of smallest squared L2
distance, nearest first; each surviving hit index is bounds-checked
against the metadata list, the metadata dict copied and annotated with
the score.  The method reads but never reassigns `self.index` /
`self.metadata`; the first component is the state after the call. -/
def VectorStore.search (s : VectorStore) (query_embedding : List ℚ)
    (top_k : ℕ) : VectorStore × List SearchResult :=
  if s.metadata.length = 0 then (s, [])
  else
    let k := min top_k s.metadata.length
    let scored := (List.range s.index_vectors.length).map
      (fun i => (i, squaredL2 query_embedding (s.index_vectors.getD i [])))
    let ranked := scored.insertionSort rankLE
    (s, (ranked.take k).filterMap (fun p =>
      if h : p.1 < s.metadata.length then
        some ⟨s.metadata.get ⟨p.1, h⟩, similarityScore p.2⟩
      else none))

/-- Contents of a file on disk: a serialized faiss index
(`faiss.write_index`) or a pickled metadata list (`pickle.dump`).
Reading a path with the wrong reader raises, which `load` turns into its
failure branch. -/
inductive FileContent
  | faissFile (d : ℕ) (vectors : List (List ℚ))
  | metaFile (metadata : List Metadata)
deriving DecidableEq

/-- The file system: paths (abstracted to `ℕ`) to contents; `none` is a
missing file. -/
abbrev FileSystem := ℕ → Option FileContent

def emptyFS : FileSystem := fun _ => none

def writeFile (fs : FileSystem) (p : ℕ) (c : FileContent) : FileSystem :=
  fun q => if q = p then some c else fs q

/-- `VectorStore.save`: writes the index to `index_path`, then the
pickled metadata to `metadata_path`.  (If the two paths coincide the
second write wins, as on disk.) -/
def VectorStore.save (s : VectorStore) (fs : FileSystem)
    (index_path metadata_path : ℕ) : FileSystem :=
  writeFile (writeFile fs index_path (.faissFile s.index_dim s.index_vectors))
    metadata_path (.metaFile s.metadata)

/-- `VectorStore.load`: `faiss.read_index` then `pickle.load`, the whole
body under `try`; any failure (missing file, wrong format) lands in the
`except` branch, which installs a fresh `IndexFlatL2(self.embedding_dim)`
and empty metadata and returns `False`. -/
def VectorStore.load (s : VectorStore) (fs : FileSystem)
    (index_path metadata_path : ℕ) : Bool × VectorStore :=
  match fs index_path, fs metadata_path with
  | some (.faissFile d vs), some (.metaFile ms) =>
      (true, { s with index_dim := d, index_vectors := vs, metadata := ms })
  | _, _ =>
      (false, { s with index_dim := s.embedding_dim, index_vectors := [], metadata := [] })

/-- `VectorStore.clear`: fresh empty index of the construction-time
dimension, empty metadata. -/
def VectorStore.clear (s : VectorStore) : VectorStore :=
  { s with index_dim := s.embedding_dim, index_vectors := [], metadata := [] }

/-- `VectorStore.get_size`: `len(self.metadata)`. -/
def VectorStore.get_size (s : VectorStore) : ℕ := s.metadata.length

/-! ### Operation sequences over a store and the file system -/

/-- One public `VectorStore` operation. -/
inductive Op
  | add (embeddings : List (List ℚ)) (metadata_list : List Metadata)
  | clear
  | save (index_path metadata_path : ℕ)
  | load (index_path metadata_path : ℕ)
  | search (query_embedding : List ℚ) (top_k : ℕ)

/-- Effect of one operation on the store and the file system.  A raising
`add` leaves the store untouched (the exception fires before any
mutation in the source). -/
def step : VectorStore × FileSystem → Op → VectorStore × FileSystem
  | (s, fs), .add vs ms =>
      (match s.add_embeddings vs ms with
       | .ok s' => s'
       | .error _ => s, fs)
  | (s, fs), .clear => (s.clear, fs)
  | (s, fs), .save ip mp => (s, s.save fs ip mp)
  | (s, fs), .load ip mp => ((s.load fs ip mp).2, fs)
  | (s, fs), .search q k => ((s.search q k).1, fs)

def run (init : VectorStore × FileSystem) (ops : List Op) : VectorStore × FileSystem :=
  ops.foldl step init

/-- The parallel-array invariant: `index.ntotal == len(self.metadata)`. -/
def sizeInvariant (s : VectorStore) : Prop :=
  s.index_vectors.length = s.metadata.length

instance (s : VectorStore) : Decidable (sizeInvariant s) :=
  inferInstanceAs (Decidable (_ = _))

/-- A `load` step is coherent when the two files it reads (if both
deserialize) hold equally many vectors and metadata records — e.g. when
they were written by one `save`.  All other operations are always
coherent. -/
def coherentStep (sfs : VectorStore × FileSystem) : Op → Prop
  | .load ip mp => ∀ d vs ms, sfs.2 ip = some (.faissFile d vs) →
      sfs.2 mp = some (.metaFile ms) → vs.length = ms.length
  | _ => True

def coherentTrace : VectorStore × FileSystem → List Op → Prop
  | _, [] => True
  | sfs, op :: ops => coherentStep sfs op ∧ coherentTrace (step sfs op) ops

/-! ### Helper lemmas -/

theorem squaredL2_nonneg (q v : List ℚ) : 0 ≤ squaredL2 q v := by
  apply List.sum_nonneg
  intro x hx
  rcases List.mem_map.1 hx with ⟨p, _, rfl⟩
  exact sq_nonneg _

theorem similarityScore_le_of_le {d1 d2 : ℚ} (h0 : 0 ≤ d1) (h : d1 ≤ d2) :
    similarityScore d2 ≤ similarityScore d1 :=
  one_div_le_one_div_of_le (by linarith) (by linarith)

theorem similarityScore_lt_of_lt {d1 d2 : ℚ} (h0 : 0 ≤ d1) (h : d1 < d2) :
    similarityScore d2 < similarityScore d1 :=
  one_div_lt_one_div_of_lt (by linarith) (by linarith)

/-! ### C3 -/

/-- **C3.** `add_embeddings` raises exactly on an invalid batch — a
`vectors`/`metadata` length mismatch, or some vector whose length
differs from the index dimension — a raising call leaves the store
unchanged, and a valid batch grows the index and the metadata list by
the batch length. -/
theorem C3_add_validation_atomic (s : VectorStore) (vs : List (List ℚ))
    (ms : List Metadata) :
    ((∃ e, s.add_embeddings vs ms = .error e) ↔
      vs.length ≠ ms.length ∨ ∃ v ∈ vs, v.length ≠ s.index_dim)
    ∧ (∀ fs, (∃ e, s.add_embeddings vs ms = .error e) →
        step (s, fs) (.add vs ms) = (s, fs))
    ∧ (∀ s', s.add_embeddings vs ms = .ok s' →
        s'.index_vectors.length = s.index_vectors.length + vs.length ∧
        s'.metadata.length = s.metadata.length + ms.length) := by
  refine ⟨?_, ?_, ?_⟩
  · unfold VectorStore.add_embeddings
    split_ifs with h1 h2 h3
    · exact iff_of_true ⟨_, rfl⟩ (Or.inl h1)
    · have hnil : vs = [] := List.isEmpty_iff.1 h2
      subst hnil
      push_neg at h1
      constructor
      · rintro ⟨e, he⟩
        simp at he
      · rintro (hbad | ⟨v, hv, _⟩)
        · exact (hbad h1).elim
        · simp at hv
    · refine iff_of_true ⟨_, rfl⟩ (Or.inr ?_)
      rcases List.any_eq_true.1 h3 with ⟨v, hv, hne⟩
      exact ⟨v, hv, by simpa using hne⟩
    · push_neg at h1
      constructor
      · rintro ⟨e, he⟩
        simp at he
      · rintro (hbad | ⟨v, hv, hne⟩)
        · exact (hbad h1).elim
        · exact (h3 (List.any_eq_true.2 ⟨v, hv, by simpa using hne⟩)).elim
  · rintro fs ⟨e, he⟩
    simp [step, he]
  · intro s' hok
    unfold VectorStore.add_embeddings at hok
    split_ifs at hok with h1 h2 h3
    · have hnil : vs = [] := List.isEmpty_iff.1 h2
      subst hnil
      push_neg at h1
      have hms : ms = [] := List.eq_nil_of_length_eq_zero h1.symm
      subst hms
      simp only [Except.ok.injEq] at hok
      subst hok
      simp
    · simp only [Except.ok.injEq] at hok
      subst hok
      simp

/-! ### C7 -/

/-- **C7.** `load` is total: when both files deserialize (a faiss index
at `index_path`, a pickled metadata list at `metadata_path`) it returns
`True` and the in-memory state is fully replaced by the persisted state;
on any other file-system contents it returns `False` and leaves the
store as a fresh empty index of the dimension the store was constructed
with. -/
theorem C7_load_failure_resets (s : VectorStore) (fs : FileSystem) (ip mp : ℕ) :
    (∀ d vecs ms, fs ip = some (.faissFile d vecs) → fs mp = some (.metaFile ms) →
        s.load fs ip mp = (true, ⟨s.embedding_dim, d, vecs, ms⟩))
    ∧ ((¬ ∃ d vecs ms, fs ip = some (.faissFile d vecs) ∧ fs mp = some (.metaFile ms)) →
        s.load fs ip mp = (false, ⟨s.embedding_dim, s.embedding_dim, [], []⟩)) := by
  constructor
  · intro d vecs ms h1 h2
    simp [VectorStore.load, h1, h2]
  · intro hno
    unfold VectorStore.load
    rcases h1 : fs ip with _ | c1
    · rcases h2 : fs mp with _ | c2
      · rfl
      · cases c2 <;> rfl
    · rcases h2 : fs mp with _ | c2
      · cases c1 <;> rfl
      · cases c1 with
        | faissFile d vecs =>
            cases c2 with
            | faissFile d2 v2 => rfl
            | metaFile ms => exact absurd ⟨d, vecs, ms, h1, h2⟩ hno
        | metaFile ms => cases c2 <;> rfl

/-! ### C6 -/

/-- **C6.** `_create_dog_profile_text` is a pure function of the record
(equal records give byte-identical text); with all fields present and
non-empty the rendered lines appear in the fixed order Name, Breed, Sex,
Age, Weight, Description, Temperament, Special Needs, Training; missing
name/breed/sex/age/weight render as the literal `Unknown`; an absent and
an empty optional field are both omitted; the function is total. -/
theorem C6_profile_builder (d d' : DogData) (n b sx a w de te sn tr : Str) :
    (d = d' → create_dog_profile_text d = create_dog_profile_text d')
    ∧ (de ≠ [] → te ≠ [] → sn ≠ [] → tr ≠ [] →
        create_dog_profile_text ⟨some n, some b, some sx, some a, some w,
            some de, some te, some sn, some tr⟩ =
          "Name: ".toList ++ n ++ "\nBreed: ".toList ++ b ++ "\nSex: ".toList ++ sx
            ++ "\nAge: ".toList ++ a ++ "\nWeight: ".toList ++ w
            ++ "\nDescription: ".toList ++ de ++ "\nTemperament: ".toList ++ te
            ++ "\nSpecial Needs: ".toList ++ sn ++ "\nTraining: ".toList ++ tr)
    ∧ (create_dog_profile_text ⟨none, none, none, none, none, none, none, none, none⟩ =
        "Name: Unknown\nBreed: Unknown\nSex: Unknown\nAge: Unknown\nWeight: Unknown".toList)
    ∧ (create_dog_profile_text { d with description := some [] } =
        create_dog_profile_text { d with description := none })
    ∧ (create_dog_profile_text { d with temperament := some [] } =
        create_dog_profile_text { d with temperament := none })
    ∧ (create_dog_profile_text { d with special_needs := some [] } =
        create_dog_profile_text { d with special_needs := none })
    ∧ (create_dog_profile_text { d with training := some [] } =
        create_dog_profile_text { d with training := none }) := by
  refine ⟨fun h => by rw [h], fun hde hte hsn htr => ?_, by decide, ?_, ?_, ?_, ?_⟩
  · simp [create_dog_profile_text, optLine, hde, hte, hsn, htr, List.intercalate,
      List.intersperse]
  · simp [create_dog_profile_text, optLine]
  · simp [create_dog_profile_text, optLine]
  · simp [create_dog_profile_text, optLine]
  · simp [create_dog_profile_text, optLine]

/-! ### C9 -/

/-- **C9 counterexample.** The claim says every extracted metadata
record carries a `description_snippet`; but for a row with a missing (or
empty) description the source only sets the key under
`if description:`, so the extracted record carries no
`description_snippet` at all. -/
theorem C9_counterexample :
    (extract_metadata_row
        ⟨none, none, none, none, none, none, none, none, none, none⟩).description_snippet
        = none
    ∧ ¬ ∃ sn, (extract_metadata_row
        ⟨none, none, none, none, none, none, none, none, none,
          none⟩).description_snippet = some sn := by
  constructor
  · decide
  · rintro ⟨sn, hsn⟩
    simp [extract_metadata_row] at hsn

/-- **C9 (amended).** The extracted metadata record carries dog_id,
name, breed, sex, age, weight, data_source, source_id and profile_text
(with the source's defaults for missing columns); when the description
is present and non-empty it also carries a `description_snippet` equal
to the description capped at 200 characters with `"..."` appended when
and only when the description exceeds 200 characters — so any snippet
has at most 203 characters — and when the description is missing or
empty no `description_snippet` is set. -/
theorem C9_metadata_snippet (r : DogRow) :
    (extract_metadata_row r).dog_id = r.dog_id.getD []
    ∧ (extract_metadata_row r).name = r.name.getD "Unknown".toList
    ∧ (extract_metadata_row r).breed = r.breed.getD "Unknown".toList
    ∧ (extract_metadata_row r).sex = r.sex.getD "Unknown".toList
    ∧ (extract_metadata_row r).age = r.age.getD "Unknown".toList
    ∧ (extract_metadata_row r).weight = r.weight.getD "Unknown".toList
    ∧ (extract_metadata_row r).data_source = r.data_source.getD "Unknown".toList
    ∧ (extract_metadata_row r).source_id = r.source_id.getD []
    ∧ (extract_metadata_row r).profile_text = r.profile_text.getD []
    ∧ (r.description.getD [] = [] → (extract_metadata_row r).description_snippet = none)
    ∧ (∀ de, r.description = some de → de ≠ [] →
        (extract_metadata_row r).description_snippet =
          some (if 200 < de.length then de.take 200 ++ "...".toList else de))
    ∧ (∀ sn, (extract_metadata_row r).description_snippet = some sn →
        sn.length ≤ 203) := by
  refine ⟨rfl, rfl, rfl, rfl, rfl, rfl, rfl, rfl, rfl, ?_, ?_, ?_⟩
  · intro h
    simp [extract_metadata_row, h]
  · intro de hde hne
    simp [extract_metadata_row, hde, hne]
  · intro sn hsn
    simp only [extract_metadata_row] at hsn
    by_cases h : r.description.getD [] = []
    · simp [h] at hsn
    · simp only [if_neg h, Option.some.injEq] at hsn
      subst hsn
      split_ifs with hlen
      · have h3 : ("...".toList).length = 3 := rfl
        simp only [List.length_append, List.length_take, h3]
        omega
      · omega

/-! ### C5 -/

theorem get_embeddings_length (provider : List Str → Option (List (List ℚ)))
    (hProv : ∀ b r, provider b = some r → r.length = b.length) :
    ∀ texts, (get_embeddings provider texts).length = texts.length := by
  intro texts
  induction texts using get_embeddings.induct provider with
  | case1 => simp [get_embeddings]
  | case2 t rest ih =>
      rw [get_embeddings]
      rcases hp : provider ((t :: rest).take 20) with _ | r
      · simp [hp, List.length_take, List.length_drop] at ih ⊢
        omega
      · have hr := hProv _ _ hp
        simp [List.length_take] at hr
        simp [hp, hr, List.length_take, List.length_drop] at ih ⊢
        omega

theorem get_embeddings_slot (provider : List Str → Option (List (List ℚ)))
    (hProv : ∀ b r, provider b = some r → r.length = b.length) :
    ∀ texts i, i < texts.length →
      (get_embeddings provider texts).getD i [] =
        (match provider (chunk20 texts i) with
         | some r => r.getD (i % 20) []
         | none => zero_vector) := by
  intro texts
  induction texts using get_embeddings.induct provider with
  | case1 => intro i hi; simp at hi
  | case2 t rest ih =>
      intro i hi
      simp only [List.length_cons] at hi
      rw [get_embeddings]
      by_cases h20 : i < 20
      · have hchunk : chunk20 (t :: rest) i = (t :: rest).take 20 := by
          unfold chunk20
          rw [Nat.div_eq_of_lt h20]
          simp
        have hmod : i % 20 = i := Nat.mod_eq_of_lt h20
        rcases hp : provider ((t :: rest).take 20) with _ | r
        · have hblock : i < (List.replicate ((t :: rest).take 20).length zero_vector).length := by
            simp [List.length_take, List.length_cons]
            omega
          rw [List.getD_append _ _ _ _ hblock, hchunk, hp]
          rw [List.getD_eq_getElem _ _ hblock, List.getElem_replicate]
        · have hr := hProv _ _ hp
          have hblock : i < r.length := by
            rw [hr]
            simp [List.length_take, List.length_cons]
            omega
          rw [List.getD_append _ _ _ _ hblock, hchunk, hp, hmod]
      · push_neg at h20
        have hlen1 : (List.take 20 (t :: rest)).length = 20 := by
          simp [List.length_take, List.length_cons]
          omega
        have hdiv : i / 20 = (i - 20) / 20 + 1 := Nat.div_eq_sub_div (by norm_num) h20
        have hchunk : chunk20 (List.drop 20 (t :: rest)) (i - 20) = chunk20 (t :: rest) i := by
          unfold chunk20
          rw [List.drop_drop]
          rw [hdiv]
          ring_nf
        have hmod : (i - 20) % 20 = i % 20 := (Nat.mod_eq_sub_mod h20).symm
        have hi' : i - 20 < (List.drop 20 (t :: rest)).length := by
          simp [List.length_drop, List.length_cons]
          omega
        rcases hp : provider ((t :: rest).take 20) with _ | r
        · have hblock : (List.replicate ((t :: rest).take 20).length zero_vector).length ≤ i := by
            simp [hlen1]
            omega
          rw [List.getD_append_right _ _ _ _ hblock]
          simp only [List.length_replicate, hlen1]
          rw [ih _ hi', hchunk, hmod]
        · have hr := hProv _ _ hp
          have hblock : r.length ≤ i := by
            rw [hr, hlen1]
            omega
          rw [List.getD_append_right _ _ _ _ hblock]
          rw [hr, hlen1]
          rw [ih _ hi', hchunk, hmod]

/-- **C5.** When the provider honours its contract (a successful chunk
call returns one embedding per input), `get_embeddings` never raises and
returns exactly one output per input in order: slot `i` holds entry
`i % 20` of the provider's answer for the chunk of 20 texts containing
input `i`, and every slot of a chunk whose provider call fails holds the
all-zero vector of dimension 1536; `get_embedding` likewise returns the
1536-dimensional all-zero vector when its provider call fails. -/
theorem C5_embedding_degradation (provider : List Str → Option (List (List ℚ)))
    (provider1 : Str → Option (List ℚ)) (texts : List Str) (text : Str)
    (hProv : ∀ b r, provider b = some r → r.length = b.length) :
    (get_embeddings provider texts).length = texts.length
    ∧ (∀ i, i < texts.length →
        (get_embeddings provider texts).getD i [] =
          (match provider (chunk20 texts i) with
           | some r => r.getD (i % 20) []
           | none => zero_vector))
    ∧ (∀ i, i < texts.length → provider (chunk20 texts i) = none →
        (get_embeddings provider texts).getD i [] = zero_vector)
    ∧ (provider1 text = none → get_embedding provider1 text = zero_vector)
    ∧ zero_vector.length = 1536
    ∧ (∀ x ∈ zero_vector, x = 0) := by
  refine ⟨get_embeddings_length provider hProv texts,
    get_embeddings_slot provider hProv texts, ?_, ?_, ?_, ?_⟩
  · intro i hi hnone
    rw [get_embeddings_slot provider hProv texts i hi, hnone]
  · intro h
    simp [get_embedding, h]
  · simp only [zero_vector, List.length_replicate]
  · intro x hx
    exact List.eq_of_mem_replicate hx

/-- Instantiation of `C5_embedding_degradation` with an always-failing
provider on a one-text input. -/
theorem C5_embedding_degradation_witness :
    (get_embeddings (fun _ => none) ["dog".toList]).length = 1 :=
  (C5_embedding_degradation (fun _ => none) (fun _ => none) ["dog".toList]
    "dog".toList (fun _ _ h => by cases h)).1

/-! ### Search helper lemmas -/

theorem mem_scored_spec (s : VectorStore) (q : List ℚ) (n : ℕ) (p : ℕ × ℚ)
    (hp : p ∈ (((List.range s.index_vectors.length).map
        (fun i => (i, squaredL2 q (s.index_vectors.getD i [])))).insertionSort rankLE).take n) :
    p.1 < s.index_vectors.length ∧ p.2 = squaredL2 q (s.index_vectors.getD p.1 []) := by
  have h1 : p ∈ ((List.range s.index_vectors.length).map
      (fun i => (i, squaredL2 q (s.index_vectors.getD i [])))).insertionSort rankLE :=
    (List.take_sublist n _).mem hp
  have h2 := (List.perm_insertionSort rankLE _).mem_iff.1 h1
  rcases List.mem_map.1 h2 with ⟨i, hi, hpe⟩
  cases hpe
  exact ⟨List.mem_range.1 hi, rfl⟩

theorem search_result_mem {s : VectorStore} {q : List ℚ} {k : ℕ} {r : SearchResult}
    (hr : r ∈ (s.search q k).2) :
    ∃ i, ∃ hi : i < s.metadata.length, i < s.index_vectors.length ∧
      r = ⟨s.metadata.get ⟨i, hi⟩,
           similarityScore (squaredL2 q (s.index_vectors.getD i []))⟩ := by
  unfold VectorStore.search at hr
  by_cases hm : s.metadata.length = 0
  · simp [hm] at hr
  · simp only [hm, if_neg, if_false] at hr
    rcases List.mem_filterMap.1 hr with ⟨p, hp, hfp⟩
    have hps := mem_scored_spec s q _ p hp
    by_cases him : p.1 < s.metadata.length
    · rw [dif_pos him] at hfp
      refine ⟨p.1, him, hps.1, ?_⟩
      rw [← hps.2]
      exact (Option.some.inj hfp).symm
    · rw [dif_neg him] at hfp
      cases hfp

theorem search_scores_sorted (s : VectorStore) (q : List ℚ) (k : ℕ) :
    (s.search q k).2.Pairwise
      (fun a b => b.similarity_score ≤ a.similarity_score) := by
  unfold VectorStore.search
  by_cases hm : s.metadata.length = 0
  · simp [hm]
  · simp only [hm, if_neg, if_false]
    apply List.pairwise_filterMap.2
    have hsorted : (((List.range s.index_vectors.length).map
        (fun i => (i, squaredL2 q (s.index_vectors.getD i [])))).insertionSort
          rankLE).Pairwise rankLE :=
      List.sorted_insertionSort rankLE _
    have htake := List.Pairwise.sublist (List.take_sublist (min k s.metadata.length) _) hsorted
    refine htake.imp_of_mem ?_
    intro a b ha hb hab
    intro x hx y hy
    have hax := mem_scored_spec s q _ a ha
    by_cases hia : a.1 < s.metadata.length
    · rw [dif_pos hia] at hx
      by_cases hib : b.1 < s.metadata.length
      · rw [dif_pos hib] at hy
        cases hx
        cases hy
        have h0 : 0 ≤ a.2 := hax.2 ▸ squaredL2_nonneg q _
        exact similarityScore_le_of_le h0 hab
      · rw [dif_neg hib] at hy
        cases hy
    · rw [dif_neg hia] at hx
      cases hx

/-! ### C2 -/

/-- **C2.** For every stored state, query vector and `k ≥ 1`, `search`
returns at most `min(k, get_size())` results, ordered by non-increasing
`similarity_score` (equivalently non-decreasing squared — hence plain —
L2 distance, the score transform being antitone), and on an empty
metadata list it returns the empty sequence rather than raising. -/
theorem C2_search_topk_ordered (s : VectorStore) (q : List ℚ) (k : ℕ)
    (hk : 1 ≤ k) :
    (s.search q k).2.length ≤ min k s.get_size
    ∧ (s.search q k).2.Pairwise
        (fun a b => b.similarity_score ≤ a.similarity_score)
    ∧ (s.get_size = 0 → (s.search q k).2 = []) := by
  refine ⟨?_, search_scores_sorted s q k, ?_⟩
  · unfold VectorStore.search
    by_cases hm : s.metadata.length = 0
    · simp [hm]
    · simp only [hm, if_neg, if_false]
      refine le_trans (List.length_filterMap_le _ _) ?_
      rw [List.length_take]
      exact min_le_left _ _
  · intro h
    unfold VectorStore.search
    simp [VectorStore.get_size] at h
    simp [h]

/-- Instantiation of `C2_search_topk_ordered` on a two-vector store. -/
theorem C2_search_topk_ordered_witness :
    ((VectorStore.mk 2 2 [[0, 0], [3, 4]]
        [⟨"a".toList, [], [], [], [], [], [], [], [], none⟩,
         ⟨"b".toList, [], [], [], [], [], [], [], [], none⟩]).search [0, 0] 5).2.length ≤
      min 5 (VectorStore.mk 2 2 [[0, 0], [3, 4]]
        [⟨"a".toList, [], [], [], [], [], [], [], [], none⟩,
         ⟨"b".toList, [], [], [], [], [], [], [], [], none⟩]).get_size :=
  (C2_search_topk_ordered _ [0, 0] 5 (by norm_num)).1

/-! ### C4 -/

/-- **C4 counterexample.** faiss's `IndexFlatL2` reports *squared* L2
distances, and `search` applies `1/(1+d)` to that squared value: for a
stored vector `[0]` and query `[2]` the L2 distance is `2` (its square
is `4`), the code returns score `1/(1+4) = 1/5`, but the claimed
`1/(1+distance)` would be `1/(1+2) = 1/3`. -/
theorem C4_counterexample :
    ((VectorStore.mk 1 1 [[0]] [⟨[], [], [], [], [], [], [], [], [], none⟩]).search
        [2] 1).2.map SearchResult.similarity_score = [1 / (1 + 4)]
    ∧ squaredL2 [2] [0] = 2 ^ 2
    ∧ ((1 : ℚ) / (1 + 4) ≠ 1 / (1 + 2)) := by
  refine ⟨?_, by norm_num [squaredL2], by norm_num⟩
  simp only [VectorStore.search, List.insertionSort, List.orderedInsert, squaredL2,
    similarityScore, rankLE]
  norm_num [List.filterMap_cons, Prod.mk_zero_zero]

/-- **C4 (amended).** Every returned `similarity_score` equals
`1 / (1 + dsq)` where `dsq` is the *squared* L2 distance between the
query and the corresponding stored vector; a stored vector at distance 0
gets score exactly 1, and the score is strictly decreasing as the
(squared) distance increases. -/
theorem C4_score_mapping (s : VectorStore) (q : List ℚ) (k : ℕ) :
    (∀ r ∈ (s.search q k).2, ∃ i, i < s.index_vectors.length ∧
        r.similarity_score = 1 / (1 + squaredL2 q (s.index_vectors.getD i [])))
    ∧ similarityScore 0 = 1
    ∧ (∀ d1 d2 : ℚ, 0 ≤ d1 → d1 < d2 → similarityScore d2 < similarityScore d1) := by
  refine ⟨?_, by norm_num [similarityScore],
    fun d1 d2 h0 h => similarityScore_lt_of_lt h0 h⟩
  intro r hr
  rcases search_result_mem hr with ⟨i, hi, hiv, rfl⟩
  exact ⟨i, hiv, rfl⟩

/-- Instantiation of `C4_score_mapping`: distance 0 maps to score 1. -/
theorem C4_score_mapping_witness : similarityScore 0 = 1 :=
  (C4_score_mapping (VectorStore.init 1) [0] 1).2.1

/-! ### C10 -/

/-- **C10.** `search` is read-only and returns copies: the store state
after a `search` call is the state before it, and every returned result
consists of a stored metadata record (equal as a value to the stored
one) together with the added `similarity_score`. -/
theorem C10_search_readonly_copies (s : VectorStore) (q : List ℚ) (k : ℕ) :
    (s.search q k).1 = s
    ∧ ∀ r ∈ (s.search q k).2, ∃ i, ∃ hi : i < s.metadata.length,
        r.meta = s.metadata.get ⟨i, hi⟩ := by
  constructor
  · unfold VectorStore.search
    split <;> rfl
  · intro r hr
    rcases search_result_mem hr with ⟨i, hi, _, rfl⟩
    exact ⟨i, hi, rfl⟩

/-- Instantiation of `C10_search_readonly_copies`: the frame part on a
concrete store. -/
theorem C10_search_readonly_copies_witness :
    ((VectorStore.init 3).search [1, 2, 3] 4).1 = VectorStore.init 3 :=
  (C10_search_readonly_copies (VectorStore.init 3) [1, 2, 3] 4).1

/-! ### C8 -/

/-- **C8.** Round-trip: saving a store and loading the saved pair into a
fresh store of the same construction dimension succeeds and reproduces a
store on which `search` returns exactly the same ranked results (same
order, same scores — the model is exact, so "within floating-point
tolerance" is strengthened to equality) for every query and `k`. -/
theorem C8_save_load_roundtrip (s : VectorStore) (fs : FileSystem) (ip mp : ℕ)
    (hne : ip ≠ mp) (q : List ℚ) (k : ℕ) :
    ((VectorStore.init s.embedding_dim).load (s.save fs ip mp) ip mp).1 = true
    ∧ (((VectorStore.init s.embedding_dim).load (s.save fs ip mp) ip mp).2.search q k).2 =
        (s.search q k).2 := by
  have h1 : (s.save fs ip mp) ip = some (.faissFile s.index_dim s.index_vectors) := by
    simp [VectorStore.save, writeFile, hne]
  have h2 : (s.save fs ip mp) mp = some (.metaFile s.metadata) := by
    simp [VectorStore.save, writeFile]
  constructor
  · simp [VectorStore.load, h1, h2]
  · simp only [VectorStore.load, h1, h2]
    rfl

/-- Instantiation of `C8_save_load_roundtrip` on a one-vector store and
the path pair `(0, 1)`. -/
theorem C8_save_load_roundtrip_witness :
    ((VectorStore.init 1).load
        ((VectorStore.mk 1 1 [[0]]
          [⟨[], [], [], [], [], [], [], [], [], none⟩]).save emptyFS 0 1) 0 1).1 = true :=
  (C8_save_load_roundtrip
    (VectorStore.mk 1 1 [[0]] [⟨[], [], [], [], [], [], [], [], [], none⟩])
    emptyFS 0 1 (by norm_num) [0] 1).1

/-! ### C1 -/

theorem search_state_id (s : VectorStore) (q : List ℚ) (k : ℕ) :
    (s.search q k).1 = s := by
  unfold VectorStore.search
  split <;> rfl

theorem step_preserves_sizeInvariant (s : VectorStore) (fs : FileSystem) (op : Op)
    (h0 : sizeInvariant s) (hc : coherentStep (s, fs) op) :
    sizeInvariant (step (s, fs) op).1 := by
  cases op with
  | add vs ms =>
      simp only [step]
      rcases h : s.add_embeddings vs ms with e | s'
      · exact h0
      · unfold VectorStore.add_embeddings at h
        split_ifs at h with h1 h2 h3
        · simp only [Except.ok.injEq] at h
          subst h
          exact h0
        · simp only [Except.ok.injEq] at h
          subst h
          push_neg at h1
          simp only [sizeInvariant, List.length_append] at h0 ⊢
          omega
  | clear =>
      simp [step, VectorStore.clear, sizeInvariant]
  | save ip mp =>
      exact h0
  | load ip mp =>
      simp only [step]
      rcases h1 : fs ip with _ | c1
      · simp [VectorStore.load, h1, sizeInvariant]
      · rcases h2 : fs mp with _ | c2
        · cases c1 <;> simp [VectorStore.load, h1, h2, sizeInvariant]
        · cases c1 with
          | faissFile d vs =>
              cases c2 with
              | faissFile d2 v2 => simp [VectorStore.load, h1, h2, sizeInvariant]
              | metaFile ms =>
                  simp only [VectorStore.load, h1, h2]
                  exact hc d vs ms h1 h2
          | metaFile ms => cases c2 <;> simp [VectorStore.load, h1, h2, sizeInvariant]
  | search q k =>
      simp only [step, search_state_id]
      exact h0

/-- **C1 counterexample.** The invariant does not survive *every*
sequence of public operations: two `save` calls that share the index
path but use different metadata paths leave the file system with a
2-vector index file at path 0 and a 1-record metadata file at path 1;
`load 0 1` then succeeds and installs a state with 2 index vectors but 1
metadata record. -/
theorem C1_counterexample :
    ¬ sizeInvariant (run (VectorStore.init 1, emptyFS)
        [Op.add [[0]] [⟨[], [], [], [], [], [], [], [], [], none⟩],
         Op.save 0 1,
         Op.add [[1]] [⟨[], [], [], [], [], [], [], [], [], none⟩],
         Op.save 0 2,
         Op.load 0 1]).1
    ∧ (run (VectorStore.init 1, emptyFS)
        [Op.add [[0]] [⟨[], [], [], [], [], [], [], [], [], none⟩],
         Op.save 0 1,
         Op.add [[1]] [⟨[], [], [], [], [], [], [], [], [], none⟩],
         Op.save 0 2,
         Op.load 0 1]).1.index_vectors.length = 2
    ∧ (run (VectorStore.init 1, emptyFS)
        [Op.add [[0]] [⟨[], [], [], [], [], [], [], [], [], none⟩],
         Op.save 0 1,
         Op.add [[1]] [⟨[], [], [], [], [], [], [], [], [], none⟩],
         Op.save 0 2,
         Op.load 0 1]).1.metadata.length = 1 := by
  refine ⟨by decide, by decide, by decide⟩

/-- **C1 (amended).** Starting from a state satisfying the
parallel-array invariant, every sequence of public operations whose
`load` steps read coherent file pairs (in particular: pairs written by a
single `save`, or any sequence without `load`) preserves
`index.ntotal == len(metadata)`, and `get_size()` then reports both
counts; a `load` given index/metadata paths from two different saves can
break the invariant (see the counterexample). -/
theorem C1_parallel_array_invariant (s : VectorStore) (fs : FileSystem)
    (ops : List Op) (h0 : sizeInvariant s) (hc : coherentTrace (s, fs) ops) :
    sizeInvariant (run (s, fs) ops).1
    ∧ (run (s, fs) ops).1.get_size = (run (s, fs) ops).1.index_vectors.length
    ∧ (run (s, fs) ops).1.get_size = (run (s, fs) ops).1.metadata.length := by
  have main : ∀ (ops : List Op) (s : VectorStore) (fs : FileSystem),
      sizeInvariant s → coherentTrace (s, fs) ops →
      sizeInvariant (run (s, fs) ops).1 := by
    intro ops
    induction ops with
    | nil => intro s fs h0 _; exact h0
    | cons op rest ih =>
        intro s fs h0 hc
        rcases hc with ⟨hstep, hrest⟩
        have h1 := step_preserves_sizeInvariant s fs op h0 hstep
        have hrun : run (s, fs) (op :: rest) = run (step (s, fs) op) rest := by
          simp [run]
        rw [hrun]
        rcases hp : step (s, fs) op with ⟨s', fs'⟩
        rw [hp] at h1 hrest
        exact ih s' fs' h1 hrest
  exact ⟨main ops s fs h0 hc, (main ops s fs h0 hc).symm, rfl⟩

/-- Instantiation of `C1_parallel_array_invariant` on a concrete
add-then-clear trace. -/
theorem C1_parallel_array_invariant_witness :
    sizeInvariant (run (VectorStore.init 1, emptyFS)
        [Op.add [[0]] [⟨[], [], [], [], [], [], [], [], [], none⟩], Op.clear]).1 :=
  (C1_parallel_array_invariant (VectorStore.init 1) emptyFS
    [Op.add [[0]] [⟨[], [], [], [], [], [], [], [], [], none⟩], Op.clear]
    (by decide) ⟨trivial, trivial, trivial⟩).1

/-! ### Remaining witnesses -/

/-- Instantiation of `C3_add_validation_atomic`: a length-mismatched
batch leaves store and file system unchanged. -/
theorem C3_add_validation_atomic_witness :
    step (VectorStore.init 2, emptyFS) (Op.add [[1, 2]] []) =
      (VectorStore.init 2, emptyFS) :=
  (C3_add_validation_atomic (VectorStore.init 2) [[1, 2]] []).2.1 emptyFS
    ⟨AddError.length_mismatch, rfl⟩

/-- Instantiation of `C6_profile_builder`: the fully populated record
renders the nine lines in the fixed field order. -/
theorem C6_profile_builder_witness :
    create_dog_profile_text ⟨some "Rex".toList, some "Lab".toList, some "M".toList,
        some "2".toList, some "30lb".toList, some "Good dog".toList, some "Calm".toList,
        some "None".toList, some "Basic".toList⟩ =
      "Name: ".toList ++ "Rex".toList ++ "\nBreed: ".toList ++ "Lab".toList
        ++ "\nSex: ".toList ++ "M".toList ++ "\nAge: ".toList ++ "2".toList
        ++ "\nWeight: ".toList ++ "30lb".toList
        ++ "\nDescription: ".toList ++ "Good dog".toList
        ++ "\nTemperament: ".toList ++ "Calm".toList
        ++ "\nSpecial Needs: ".toList ++ "None".toList
        ++ "\nTraining: ".toList ++ "Basic".toList :=
  (C6_profile_builder ⟨none, none, none, none, none, none, none, none, none⟩
    ⟨none, none, none, none, none, none, none, none, none⟩ "Rex".toList "Lab".toList
    "M".toList "2".toList "30lb".toList "Good dog".toList "Calm".toList "None".toList
    "Basic".toList).2.1 (by decide) (by decide) (by decide) (by decide)

/-- Instantiation of `C7_load_failure_resets`: loading from an empty
file system fails and resets to a fresh empty index of the original
dimension. -/
theorem C7_load_failure_resets_witness :
    (VectorStore.init 4).load emptyFS 0 1 = (false, ⟨4, 4, [], []⟩) :=
  (C7_load_failure_resets (VectorStore.init 4) emptyFS 0 1).2
    (by rintro ⟨d, vecs, ms, h1, h2⟩; simp [emptyFS] at h1)

/-- Instantiation of `C9_metadata_snippet`: a short non-empty
description is carried verbatim as the snippet. -/
theorem C9_metadata_snippet_witness :
    (extract_metadata_row ⟨some "id1".toList, none, none, none, none, none, none,
        none, none, some "short desc".toList⟩).description_snippet =
      some (if 200 < ("short desc".toList).length
            then ("short desc".toList).take 200 ++ "...".toList
            else "short desc".toList) :=
  (C9_metadata_snippet ⟨some "id1".toList, none, none, none, none, none, none,
      none, none, some "short desc".toList⟩).2.2.2.2.2.2.2.2.2.2.1
    "short desc".toList rfl (by decide)
